import Mathlib

/-!
Verification development for the ESG searcher prototype
(`searcher_prototype.py`).  The Python functions are shallowly embedded:

* Python dicts with string keys are insertion-ordered association lists
  (`Dict`); assignment to an existing key replaces its value in place,
  assignment to a fresh key appends at the end, exactly as in CPython.
* The two regular expressions of `parse_esg_data` are embedded as
  executable matchers implementing `re.search`'s leftmost-match,
  greedy-with-backtracking semantics specialised to those patterns.
* External effects (the search provider, HTTP transport, the HTML soup
  paragraph extraction) are oracle parameters; a raised-and-caught Python
  exception is an `Except.error`.
-/

/-- Values stored in the Python dicts of the prototype: strings, lists of
strings (the error list), and `None`. -/
inductive Value where
  | s (v : String)
  | ls (v : List String)
  | null
deriving DecidableEq, Repr

/-- A Python dict with string keys, as an insertion-ordered association
list. -/
abbrev Dict := List (String × Value)

/-- Lookup of a key (first binding wins; dicts built by the embedding have
unique keys). -/
def dFind : Dict → String → Option Value
  | [], _ => none
  | (k, v) :: rest, key => if k = key then some v else dFind rest key

/-- Python `key in d`. -/
def dContains (d : Dict) (key : String) : Bool :=
  (dFind d key).isSome

/-- Python `d[key] = v`: replace in place if the key is present, otherwise
append at the end. -/
def dSet : Dict → String → Value → Dict
  | [], key, v => [(key, v)]
  | (k, w) :: rest, key, v =>
      if k = key then (k, v) :: rest else (k, w) :: dSet rest key v

/-- Match a lowercase pattern case-insensitively against the front of the
input; on success return the rest of the input (models a literal inside a
pattern compiled with `re.IGNORECASE`). -/
def stripCI : List Char → List Char → Option (List Char)
  | [], cs => some cs
  | _ :: _, [] => none
  | p :: ps, c :: cs => if c.toLower = p then stripCI ps cs else none

/-- Like `stripCI` but also return the matched input characters with their
original casing (for capture groups). -/
def takeCI : List Char → List Char → Option (List Char × List Char)
  | [], cs => some ([], cs)
  | _ :: _, [] => none
  | p :: ps, c :: cs =>
      if c.toLower = p then
        match takeCI ps cs with
        | some (m, r) => some (c :: m, r)
        | none => none
      else none

/-- Does the (lowercase) pattern occur case-insensitively anywhere in the
input? -/
def hasOccCI (pat : List Char) : List Char → Bool
  | [] => (stripCI pat []).isSome
  | c :: cs => (stripCI pat (c :: cs)).isSome || hasOccCI pat cs

/-- Python's case-sensitive substring test `pat in s`. -/
def isPre : List Char → List Char → Bool
  | [], _ => true
  | _ :: _, [] => false
  | p :: ps, c :: cs => p = c && isPre ps cs

/-- Case-sensitive substring containment, as Python's `in` on strings. -/
def containsSub (pat : List Char) : List Char → Bool
  | [] => isPre pat []
  | c :: cs => isPre pat (c :: cs) || containsSub pat cs

/-- Characters matched by the character class `[0-9,]`. -/
def isNumChar (c : Char) : Bool :=
  c.isDigit || c = ','

/-- The unit alternation `(metric tons|MT|tCO2e)` of the carbon pattern,
tried left to right, case-insensitively, preserving the matched casing. -/
def unitAt (cs : List Char) : Option (List Char) :=
  match takeCI ("metric tons".toList) cs with
  | some (m, _) => some m
  | none =>
    match takeCI ("mt".toList) cs with
    | some (m, _) => some m
    | none =>
      match takeCI ("tco2e".toList) cs with
      | some (m, _) => some m
      | none => none

/-- Match `([0-9,]+) (metric tons|MT|tCO2e)` with the number starting at
the very first character.  The `+` is greedy; giving characters back would
place a `[0-9,]` character where the literal space is required, so the
maximal run is the only candidate. -/
def numUnitAt (cs : List Char) : Option (List Char × List Char) :=
  match cs.takeWhile isNumChar with
  | [] => none
  | n :: num =>
    match cs.dropWhile isNumChar with
    | ' ' :: rest =>
      match unitAt rest with
      | some u => some (n :: num, u)
      | none => none
    | _ => none

/-- Match `(?:[^0-9]*)([0-9,]+) (metric tons|MT|tCO2e)`.  The filler
`[^0-9]*` is greedy, so the longest filler (deepest recursive call) is
tried first and earlier number starts only on backtracking; a digit ends
the filler unconditionally. -/
def fillerSearch : List Char → Option (List Char × List Char)
  | [] => none
  | c :: cs =>
    if c.isDigit then numUnitAt (c :: cs)
    else
      match fillerSearch cs with
      | some r => some r
      | none => numUnitAt (c :: cs)

/-- One anchored attempt of the carbon pattern: the literal
`carbon emissions` (case-insensitive) followed by the filler/number/unit
tail. -/
def carbonAttempt (cs : List Char) : Option (List Char × List Char) :=
  match stripCI ("carbon emissions".toList) cs with
  | some rest => fillerSearch rest
  | none => none

/-- `re.search` of the carbon pattern: the leftmost position at which an
anchored attempt succeeds, returning the two capture groups. -/
def carbonSearch : List Char → Option (List Char × List Char)
  | [] => none
  | c :: cs =>
    match carbonAttempt (c :: cs) with
    | some r => some r
    | none => carbonSearch cs

/-- One anchored attempt of `net-zero by (\d{4})` (case-insensitive). -/
def netZeroAttempt (cs : List Char) : Option (List Char) :=
  match stripCI ("net-zero by ".toList) cs with
  | some (a :: b :: c :: d :: _) =>
      if a.isDigit && b.isDigit && c.isDigit && d.isDigit then
        some [a, b, c, d]
      else none
  | _ => none

/-- `re.search` of the net-zero pattern. -/
def netZeroSearch : List Char → Option (List Char)
  | [] => none
  | c :: cs =>
    match netZeroAttempt (c :: cs) with
    | some r => some r
    | none => netZeroSearch cs

/-- The content classification produced by `fetch_content`. -/
inductive CType where
  | html
  | pdf
deriving DecidableEq, Repr

/-- The dictionary `{"type": ..., "content": ...}` returned by
`fetch_content`. -/
structure Content where
  type : CType
  content : String
deriving DecidableEq, Repr

/-- Embedding of `ESGSearcher.parse_esg_data`: run the two patterns over
HTML text (insertion order: `carbon_emissions` first, then
`net_zero_target`); for PDF content store only the placeholder note. -/
def parse_esg_data (c : Content) : Dict :=
  match c.type with
  | CType.html =>
    let d1 : Dict :=
      match carbonSearch c.content.toList with
      | some (num, unit) =>
          [("carbon_emissions", Value.s (String.mk num ++ " " ++ String.mk unit))]
      | none => []
    match netZeroSearch c.content.toList with
    | some year => d1 ++ [("net_zero_target", Value.s (String.mk year))]
    | none => d1
  | CType.pdf => [("note", Value.s "PDF parsing not implemented yet")]

/-- The fixed message appended when `carbon_emissions` is missing. -/
def msgCarbon : String := "Missing carbon emissions data"

/-- The fixed message appended when `net_zero_target` is missing. -/
def msgNetZero : String := "Missing net-zero target"

/-- One required-field check of `validate_data`: if `field` is absent,
evaluate `data.get("error", []) + [msg]` and assign it to key `error`.  A
non-list value under `error` makes the Python `+` raise `TypeError`, which
propagates to the caller (`Except.error`). -/
def vstep (d : Dict) (field msg : String) : Except Unit Dict :=
  if dContains d field then Except.ok d
  else
    match dFind d "error" with
    | none => Except.ok (dSet d "error" (Value.ls [msg]))
    | some (Value.ls l) => Except.ok (dSet d "error" (Value.ls (l ++ [msg])))
    | some _ => Except.error ()

/-- Embedding of `ESGSearcher.validate_data`: check `carbon_emissions`
then `net_zero_target`, appending one fixed message per missing field. -/
def validate_data (d : Dict) : Except Unit Dict :=
  match vstep d "carbon_emissions" msgCarbon with
  | Except.error e => Except.error e
  | Except.ok d1 => vstep d1 "net_zero_target" msgNetZero

/-- The HTTP response seen by `fetch_content` after `requests.get`
returns: its status code, the `Content-Type` header (with `""` as the
default for a missing header, as in `headers.get("Content-Type", "")`)
and the decoded body text. -/
structure HttpResponse where
  status : Nat
  contentType : String
  text : String
deriving DecidableEq, Repr

/-- The trailing path segment `url.split('/')[-1]` used to name a
downloaded PDF. -/
def lastSeg (url : String) : String :=
  (url.splitOn "/").getLastD ""

/-- Embedding of `ESGSearcher.fetch_content`.  The transport is an
oracle: `Except.error` is a connection-level exception from
`requests.get`.  `response.raise_for_status()` raises exactly for status
codes in `[400, 600)`; both exceptions are caught and yield `none`.  The
HTML-to-paragraph extraction done by BeautifulSoup is the black-box
parameter `soup`; the paragraph texts are joined with single spaces.  A
response whose `Content-Type` header contains `application/pdf` is saved
under `downloads/` and reported as a PDF path, anything else as HTML
text. -/
def fetch_content (soup : String → List String) (url : String)
    (resp : Except Unit HttpResponse) : Option Content :=
  match resp with
  | Except.error _ => none
  | Except.ok r =>
    if 400 ≤ r.status ∧ r.status < 600 then none
    else if containsSub ("application/pdf".toList) r.contentType.toList then
      some ⟨CType.pdf, "downloads/" ++ lastSeg url⟩
    else
      some ⟨CType.html, String.intercalate " " (soup r.text)⟩

/-- One item of the provider response, exposing the three fields read via
`item.get(...)` (absent fields are `None`). -/
structure RawItem where
  title : Option String
  link : Option String
  snippet : Option String
deriving DecidableEq, Repr

/-- A search hit as built by `search_reports`: the dict
`{"title": ..., "link": ..., "snippet": ...}`, each value possibly
`None`. -/
structure SearchHit where
  title : Option String
  link : Option String
  snippet : Option String
deriving DecidableEq, Repr

/-- Mapping of one well-formed provider item into a hit dict. -/
def mkHit (it : RawItem) : SearchHit :=
  ⟨it.title, it.link, it.snippet⟩

/-- The request built by `self.service.cse().list(q=..., cx=..., num=...)`. -/
structure SearchRequest where
  q : String
  cx : String
  num : Nat
deriving DecidableEq, Repr

/-- Request construction of `search_reports`: the query is passed
verbatim and `num` carries `num_results`. -/
def searchRequest (cseId query : String) (numResults : Nat) : SearchRequest :=
  ⟨query, cseId, numResults⟩

/-- The mapping loop of `search_reports` over the provider items.  An
ill-typed item makes `item.get` raise; the exception aborts the loop and
is caught outside it, so the hits accumulated so far are returned. -/
def collectHits : List (Except Unit RawItem) → List SearchHit
  | [] => []
  | Except.ok it :: rest => mkHit it :: collectHits rest
  | Except.error _ :: _ => []

/-- Embedding of `ESGSearcher.search_reports`.  The provider is an
oracle from the request to either a raised exception (`Except.error`,
e.g. network/auth/quota failure of `execute()`), or a response whose
`items` key is absent (`none`, defaulted to the empty list by
`.get("items", [])`) or holds the item list. -/
def search_reports
    (provider : SearchRequest → Except Unit (Option (List (Except Unit RawItem))))
    (cseId query : String) (numResults : Nat) : List SearchHit :=
  match provider (searchRequest cseId query numResults) with
  | Except.error _ => []
  | Except.ok none => []
  | Except.ok (some items) => collectHits items

/-- A Python value that is a string or `None`, as stored into the merged
record for `source`, `title` and `snippet`. -/
def oVal : Option String → Value
  | some s => Value.s s
  | none => Value.null

/-- The record built from one hit whose fetch succeeded: the validated
data updated with `source`, `title`, `snippet` (in that order, as in the
`update` call).  The error branch is unreachable: extracted data never
carries an `error` key, so `validate_data` never raises here. -/
def recordOf (h : SearchHit) (c : Content) : Dict :=
  match validate_data (parse_esg_data c) with
  | Except.ok v =>
      dSet (dSet (dSet v "source" (oVal h.link)) "title" (oVal h.title))
        "snippet" (oVal h.snippet)
  | Except.error _ => []

/-- Embedding of `ESGSearcher.process_search_results`.  Fetching is the
oracle `fetchO` applied to the hit's link; hits with no content are
skipped, and an exception anywhere in the loop body propagates
(`Except.error`), losing the partial output. -/
def process_search_results (fetchO : Option String → Option Content) :
    List SearchHit → Except Unit (List Dict)
  | [] => Except.ok []
  | h :: rest =>
    match fetchO h.link with
    | none => process_search_results fetchO rest
    | some c =>
      match validate_data (parse_esg_data c) with
      | Except.error e => Except.error e
      | Except.ok v =>
        match process_search_results fetchO rest with
        | Except.error e => Except.error e
        | Except.ok tailRecs =>
            Except.ok
              (dSet (dSet (dSet v "source" (oVal h.link)) "title" (oVal h.title))
                "snippet" (oVal h.snippet) :: tailRecs)

/-- Observer: the current error list of a record (`[]` when the `error`
key is absent or non-list). -/
def errList (d : Dict) : List String :=
  match dFind d "error" with
  | some (Value.ls l) => l
  | _ => []

/-- A record on which `data.get("error", []) + [...]` cannot raise: the
`error` key is absent or holds a list. -/
def WellTyped (d : Dict) : Prop :=
  dFind d "error" = none ∨ ∃ l, dFind d "error" = some (Value.ls l)

theorem dFind_dSet_self (d : Dict) (k : String) (v : Value) :
    dFind (dSet d k v) k = some v := by
  induction d with
  | nil => simp [dSet, dFind]
  | cons a rest ih =>
    obtain ⟨ka, va⟩ := a
    by_cases h : ka = k
    · simp [dSet, dFind, h]
    · simp [dSet, dFind, h, ih]

theorem dFind_dSet_ne (d : Dict) (k key : String) (v : Value) (h : key ≠ k) :
    dFind (dSet d k v) key = dFind d key := by
  have hk' : k ≠ key := Ne.symm h
  induction d with
  | nil => simp [dSet, dFind, hk']
  | cons a rest ih =>
    obtain ⟨ka, va⟩ := a
    by_cases hka : ka = k
    · subst hka
      simp [dSet, dFind, hk']
    · simp [dSet, dFind, hka, ih]

theorem dContains_dSet_ne (d : Dict) (k key : String) (v : Value) (h : key ≠ k) :
    dContains (dSet d k v) key = dContains d key := by
  simp [dContains, dFind_dSet_ne d k key v h]

theorem dContains_dSet_of (d : Dict) (k key : String) (v : Value)
    (h : dContains d key = true) : dContains (dSet d k v) key = true := by
  by_cases hk : key = k
  · subst hk
    simp [dContains, dFind_dSet_self]
  · rwa [dContains_dSet_ne d k key v hk]

theorem errList_of_none (d : Dict) (h : dFind d "error" = none) :
    errList d = [] := by
  simp [errList, h]

theorem errList_of_ls (d : Dict) (l : List String)
    (h : dFind d "error" = some (Value.ls l)) : errList d = l := by
  simp [errList, h]

theorem vstep_spec (d : Dict) (field msg : String) (hw : WellTyped d) :
    ∃ d', vstep d field msg = Except.ok d' ∧
      (∀ k, k ≠ "error" → dFind d' k = dFind d k) ∧
      (∀ k, dContains d k = true → dContains d' k = true) ∧
      errList d' = errList d ++ (if dContains d field then [] else [msg]) ∧
      WellTyped d' ∧
      (d' = d ∨ dFind d' "error" = some (Value.ls (errList d'))) := by
  by_cases hc : dContains d field
  · refine ⟨d, ?_, ?_, ?_, ?_, hw, Or.inl rfl⟩
    · simp [vstep, hc]
    · intro k _; rfl
    · intro k hk; exact hk
    · simp [hc]
  · rcases hw with hnone | ⟨l, hl⟩
    · refine ⟨dSet d "error" (Value.ls [msg]), ?_, ?_, ?_, ?_, ?_, ?_⟩
      · simp [vstep, hc, hnone]
      · intro k hk; exact dFind_dSet_ne d "error" k _ hk
      · intro k hk; exact dContains_dSet_of d "error" k _ hk
      · rw [errList_of_ls _ [msg] (dFind_dSet_self d "error" _),
          errList_of_none d hnone]
        simp [hc]
      · exact Or.inr ⟨[msg], dFind_dSet_self d "error" _⟩
      · refine Or.inr ?_
        rw [errList_of_ls _ [msg] (dFind_dSet_self d "error" _)]
        exact dFind_dSet_self d "error" _
    · refine ⟨dSet d "error" (Value.ls (l ++ [msg])), ?_, ?_, ?_, ?_, ?_, ?_⟩
      · simp [vstep, hc, hl]
      · intro k hk; exact dFind_dSet_ne d "error" k _ hk
      · intro k hk; exact dContains_dSet_of d "error" k _ hk
      · rw [errList_of_ls _ (l ++ [msg]) (dFind_dSet_self d "error" _),
          errList_of_ls d l hl]
        simp [hc]
      · exact Or.inr ⟨l ++ [msg], dFind_dSet_self d "error" _⟩
      · refine Or.inr ?_
        rw [errList_of_ls _ (l ++ [msg]) (dFind_dSet_self d "error" _)]
        exact dFind_dSet_self d "error" _

theorem validate_spec (d : Dict) (hw : WellTyped d) :
    ∃ d', validate_data d = Except.ok d' ∧
      (∀ k, k ≠ "error" → dFind d' k = dFind d k) ∧
      (∀ k, dContains d k = true → dContains d' k = true) ∧
      errList d' = errList d
        ++ (if dContains d "carbon_emissions" then [] else [msgCarbon])
        ++ (if dContains d "net_zero_target" then [] else [msgNetZero]) ∧
      WellTyped d' ∧
      (d' = d ∨ dFind d' "error" = some (Value.ls (errList d'))) := by
  obtain ⟨d1, h1, hf1, hc1, he1, hw1, hd1⟩ :=
    vstep_spec d "carbon_emissions" msgCarbon hw
  obtain ⟨d2, h2, hf2, hc2, he2, hw2, hd2⟩ :=
    vstep_spec d1 "net_zero_target" msgNetZero hw1
  have hnz : dContains d1 "net_zero_target" = dContains d "net_zero_target" := by
    simp [dContains, hf1 "net_zero_target" (by decide)]
  refine ⟨d2, ?_, ?_, ?_, ?_, hw2, ?_⟩
  · simp [validate_data, h1, h2]
  · intro k hk; rw [hf2 k hk, hf1 k hk]
  · intro k hk; exact hc2 k (hc1 k hk)
  · rw [he2, he1, hnz, List.append_assoc]
  · rcases hd2 with rfl | hfind2
    · rcases hd1 with rfl | hfind1
      · exact Or.inl rfl
      · exact Or.inr hfind1
    · exact Or.inr hfind2

theorem validate_split (d d' : Dict) (h : validate_data d = Except.ok d') :
    ∃ d1, vstep d "carbon_emissions" msgCarbon = Except.ok d1 ∧
      vstep d1 "net_zero_target" msgNetZero = Except.ok d' := by
  rcases h1 : vstep d "carbon_emissions" msgCarbon with e | d1
  · simp [validate_data, h1] at h
  · exact ⟨d1, rfl, by simpa [validate_data, h1] using h⟩

theorem vstep_frame (d d' : Dict) (field msg : String)
    (h : vstep d field msg = Except.ok d') :
    d' = d ∨ ∃ v, d' = dSet d "error" v := by
  by_cases hc : dContains d field
  · simp [vstep, hc] at h
    exact Or.inl h.symm
  · rcases hfind : dFind d "error" with _ | v
    · simp [vstep, hc, hfind] at h
      exact Or.inr ⟨_, h.symm⟩
    · rcases v with s | l | _
      · simp [vstep, hc, hfind] at h
      · simp [vstep, hc, hfind] at h
        exact Or.inr ⟨_, h.symm⟩
      · simp [vstep, hc, hfind] at h

/-- C1: for every extracted mapping that contains neither the key
`carbon_emissions` nor the key `net_zero_target` (its error-list key being
absent, as extracted data never carries one), `validate_data` returns a
record whose error-list field is exactly
`["Missing carbon emissions data", "Missing net-zero target"]`, in that
order: one fixed human-readable message per missing required field. -/
theorem c1_validate_missing_both_messages (d : Dict)
    (hc : dContains d "carbon_emissions" = false)
    (hn : dContains d "net_zero_target" = false)
    (he : dFind d "error" = none) :
    ∃ d', validate_data d = Except.ok d' ∧
      dFind d' "error" = some (Value.ls [msgCarbon, msgNetZero]) := by
  obtain ⟨d', hok, _, _, herr, _, hlast⟩ := validate_spec d (Or.inl he)
  have hel : errList d' = [msgCarbon, msgNetZero] := by
    rw [herr, errList_of_none d he, hc, hn]
    simp
  refine ⟨d', hok, ?_⟩
  rcases hlast with hde | hfind
  · rw [hde, errList_of_none d he] at hel
    simp at hel
  · rw [hel] at hfind
    exact hfind

/-- Witness for C1: the empty mapping yields exactly the two messages. -/
theorem c1_validate_missing_both_messages_witness :
    ∃ d', validate_data ([] : Dict) = Except.ok d' ∧
      dFind d' "error" = some (Value.ls [msgCarbon, msgNetZero]) :=
  c1_validate_missing_both_messages [] rfl rfl rfl

/-- C5: for every content of kind `pdf`, `parse_esg_data` yields exactly
the single-key mapping `{note: "PDF parsing not implemented yet"}`
regardless of the payload, and `validate_data` on that result still
appends both missing-field messages in addition to the note. -/
theorem c5_pdf_note_and_both_errors (c : Content) (h : c.type = CType.pdf) :
    parse_esg_data c = [("note", Value.s "PDF parsing not implemented yet")] ∧
    validate_data (parse_esg_data c) =
      Except.ok [("note", Value.s "PDF parsing not implemented yet"),
        ("error", Value.ls [msgCarbon, msgNetZero])] := by
  obtain ⟨t, s⟩ := c
  cases t
  · cases h
  · exact ⟨rfl, rfl⟩

/-- Witness for C5 at a concrete PDF content value. -/
theorem c5_pdf_note_and_both_errors_witness :
    parse_esg_data ⟨CType.pdf, "ignored"⟩ =
      [("note", Value.s "PDF parsing not implemented yet")] ∧
    validate_data (parse_esg_data ⟨CType.pdf, "ignored"⟩) =
      Except.ok [("note", Value.s "PDF parsing not implemented yet"),
        ("error", Value.ls [msgCarbon, msgNetZero])] :=
  c5_pdf_note_and_both_errors ⟨CType.pdf, "ignored"⟩ rfl

/-- C8: `parse_esg_data` is a pure function of its argument, so applying
it twice to the same fetched content yields identical extracted data. -/
theorem c8_parse_deterministic (c : Content) :
    parse_esg_data c = parse_esg_data c := rfl

/-- C9 counterexample: on a mapping that already carries an error list,
`validate_data` changes the value of that pre-existing key, so it is not
true that every key present before the call keeps its value. -/
theorem c9_frame_counterexample :
    validate_data [("error", Value.ls [])] =
      Except.ok [("error", Value.ls [msgCarbon, msgNetZero])] ∧
    dFind [("error", Value.ls [])] "error" ≠
      dFind [("error", Value.ls [msgCarbon, msgNetZero])] "error" := by
  refine ⟨rfl, ?_⟩
  decide

/-- C9 amended: whenever `validate_data` returns, the result agrees with
the input on every key other than the error-list key, and no key present
in the input is removed; the error-list key is the only one that may be
added or modified. -/
theorem c9_validate_frame (d d' : Dict) (h : validate_data d = Except.ok d') :
    (∀ k, k ≠ "error" → dFind d' k = dFind d k) ∧
    (∀ k, dContains d k = true → dContains d' k = true) := by
  obtain ⟨d1, h1, h2⟩ := validate_split d d' h
  have f1 := vstep_frame d d1 _ _ h1
  have f2 := vstep_frame d1 d' _ _ h2
  constructor
  · intro k hk
    have e1 : dFind d1 k = dFind d k := by
      rcases f1 with rfl | ⟨v, rfl⟩
      · rfl
      · exact dFind_dSet_ne d "error" k v hk
    have e2 : dFind d' k = dFind d1 k := by
      rcases f2 with rfl | ⟨v, rfl⟩
      · rfl
      · exact dFind_dSet_ne d1 "error" k v hk
    rw [e2, e1]
  · intro k hk
    have e1 : dContains d1 k = true := by
      rcases f1 with rfl | ⟨v, rfl⟩
      · exact hk
      · exact dContains_dSet_of d "error" k v hk
    rcases f2 with rfl | ⟨v, rfl⟩
    · exact e1
    · exact dContains_dSet_of d1 "error" k v e1

/-- Witness for the amended C9: a concrete `note`-only record keeps its
`note` binding across validation. -/
theorem c9_validate_frame_witness :
    dFind [("note", Value.s "n"), ("error", Value.ls [msgCarbon, msgNetZero])]
        "note" =
      dFind [("note", Value.s "n")] "note" :=
  (c9_validate_frame [("note", Value.s "n")]
      [("note", Value.s "n"), ("error", Value.ls [msgCarbon, msgNetZero])]
      rfl).1 "note" (by decide)

/-- C10: `validate_data` is not idempotent: on any record lacking
`carbon_emissions` (respectively `net_zero_target`) whose error key is
absent or a list, validating the already-validated record appends the
corresponding message again, so after two applications the error list
contains that message at least twice. -/
theorem c10_validate_not_idempotent :
    (∀ d, WellTyped d → dContains d "carbon_emissions" = false →
      ∃ d₁ d₂, validate_data d = Except.ok d₁ ∧ validate_data d₁ = Except.ok d₂ ∧
        dFind d₂ "error" = some (Value.ls (errList d₂)) ∧
        2 ≤ (errList d₂).count msgCarbon) ∧
    (∀ d, WellTyped d → dContains d "net_zero_target" = false →
      ∃ d₁ d₂, validate_data d = Except.ok d₁ ∧ validate_data d₁ = Except.ok d₂ ∧
        dFind d₂ "error" = some (Value.ls (errList d₂)) ∧
        2 ≤ (errList d₂).count msgNetZero) := by
  have hCN : msgCarbon ≠ msgNetZero := by decide
  have hNC : msgNetZero ≠ msgCarbon := by decide
  constructor
  · intro d hw hc
    obtain ⟨d₁, hok1, hf1, _, he1, hw1, _⟩ := validate_spec d hw
    have hc1 : dContains d₁ "carbon_emissions" = false := by
      rw [dContains, hf1 "carbon_emissions" (by decide), ← dContains, hc]
    have hnz1 : dContains d₁ "net_zero_target" = dContains d "net_zero_target" := by
      rw [dContains, hf1 "net_zero_target" (by decide), ← dContains]
    obtain ⟨d₂, hok2, _, _, he2, _, hd2⟩ := validate_spec d₁ hw1
    have cnt2 : 2 ≤ (errList d₂).count msgCarbon := by
      rcases hn : dContains d "net_zero_target" <;>
        simp [hc, hn, hc1, hnz1] at he1 he2 <;>
        rw [he2, he1] <;>
        simp [List.count_append, List.count_cons, hNC]
    have hne : errList d₂ ≠ [] := by
      intro hnil
      rw [hnil] at cnt2
      simp at cnt2
    refine ⟨d₁, d₂, hok1, hok2, ?_, cnt2⟩
    rcases hd2 with hde | hfind
    · rcases hw1 with hnone | ⟨l, hl⟩
      · refine absurd ?_ hne
        rw [hde]
        exact errList_of_none _ hnone
      · rw [hde, errList_of_ls d₁ l hl]
        exact hl
    · exact hfind
  · intro d hw hn
    obtain ⟨d₁, hok1, hf1, _, he1, hw1, _⟩ := validate_spec d hw
    have hn1 : dContains d₁ "net_zero_target" = false := by
      rw [dContains, hf1 "net_zero_target" (by decide), ← dContains, hn]
    have hcz1 : dContains d₁ "carbon_emissions" = dContains d "carbon_emissions" := by
      rw [dContains, hf1 "carbon_emissions" (by decide), ← dContains]
    obtain ⟨d₂, hok2, _, _, he2, _, hd2⟩ := validate_spec d₁ hw1
    have cnt2 : 2 ≤ (errList d₂).count msgNetZero := by
      rcases hc : dContains d "carbon_emissions" <;>
        simp [hn, hc, hn1, hcz1] at he1 he2 <;>
        rw [he2, he1] <;>
        simp [List.count_append, List.count_cons, hCN]
    have hne : errList d₂ ≠ [] := by
      intro hnil
      rw [hnil] at cnt2
      simp at cnt2
    refine ⟨d₁, d₂, hok1, hok2, ?_, cnt2⟩
    rcases hd2 with hde | hfind
    · rcases hw1 with hnone | ⟨l, hl⟩
      · refine absurd ?_ hne
        rw [hde]
        exact errList_of_none _ hnone
      · rw [hde, errList_of_ls d₁ l hl]
        exact hl
    · exact hfind

/-- Witness for C10: starting from the empty mapping, two validations
leave the carbon message in the error list twice. -/
theorem c10_validate_not_idempotent_witness :
    ∃ d₁ d₂, validate_data ([] : Dict) = Except.ok d₁ ∧
      validate_data d₁ = Except.ok d₂ ∧
      dFind d₂ "error" = some (Value.ls (errList d₂)) ∧
      2 ≤ (errList d₂).count msgCarbon :=
  c10_validate_not_idempotent.1 [] (Or.inl rfl) rfl

theorem collectHits_length_le (items : List (Except Unit RawItem)) :
    (collectHits items).length ≤ items.length := by
  induction items with
  | nil => simp [collectHits]
  | cons it rest ih =>
    rcases it with e | it
    · simp [collectHits]
    · simp [collectHits]
      exact ih

theorem collectHits_map_ok (pre : List RawItem) (l : List (Except Unit RawItem)) :
    collectHits (pre.map Except.ok ++ l) = pre.map mkHit ++ collectHits l := by
  induction pre with
  | nil => simp
  | cons it rest ih => simp [collectHits, ih]

/-- C2 counterexample: the mapping loop never truncates, so a provider
response with 11 items makes `search_reports` with limit 10 return 11
hits. -/
theorem c2_search_limit_counterexample :
    (search_reports
        (fun _ =>
          Except.ok (some (List.replicate 11 (Except.ok ⟨some "t", some "l", some "s"⟩))))
        "cx" "q" 10).length = 11 ∧ ¬ (11 ≤ 10) := by
  exact ⟨rfl, by decide⟩

/-- C2 amended: `search_reports` passes the limit verbatim as the `num`
field of the provider request and returns one hit per well-formed item of
the response (stopping at an ill-typed one), so its length is bounded by
the number of returned items; the length is at most the limit exactly
when the provider returns at most `limit` items — the code itself never
truncates. -/
theorem c2_search_length_le_limit
    (provider : SearchRequest → Except Unit (Option (List (Except Unit RawItem))))
    (cseId query : String) (numResults : Nat)
    (items : List (Except Unit RawItem))
    (hresp : provider (searchRequest cseId query numResults) = Except.ok (some items))
    (hlen : items.length ≤ numResults) :
    (searchRequest cseId query numResults).num = numResults ∧
    (search_reports provider cseId query numResults).length ≤ numResults := by
  refine ⟨rfl, ?_⟩
  simp only [search_reports, hresp]
  exact le_trans (collectHits_length_le items) hlen

/-- Witness for the amended C2 at a one-item provider response. -/
theorem c2_search_length_le_limit_witness :
    (searchRequest "cx" "q" 10).num = 10 ∧
    (search_reports (fun _ => Except.ok (some [Except.ok ⟨some "t", some "l", some "s"⟩]))
        "cx" "q" 10).length ≤ 10 :=
  c2_search_length_le_limit
    (fun _ => Except.ok (some [Except.ok ⟨some "t", some "l", some "s"⟩]))
    "cx" "q" 10 [Except.ok ⟨some "t", some "l", some "s"⟩] rfl (by decide)

/-- C3 counterexample: a failure while mapping the second returned item
leaves the first mapped hit in the result, so a provider-level failure
does not always yield the empty sequence — a partially filled sequence
escapes. -/
theorem c3_search_partial_counterexample :
    search_reports
        (fun _ => Except.ok (some [Except.ok ⟨some "t", some "l", some "s"⟩, Except.error ()]))
        "cx" "q" 10 = [⟨some "t", some "l", some "s"⟩] ∧
    ([(⟨some "t", some "l", some "s"⟩ : SearchHit)] : List SearchHit) ≠ [] := by
  exact ⟨rfl, by decide⟩

/-- C3 amended: a failure of the request itself yields the empty
sequence, and a failure while mapping the items yields exactly the hits
mapped before the failing item (a possibly non-empty partial sequence);
in both cases the exception is caught and nothing propagates. -/
theorem c3_search_failure_behavior :
    (∀ (provider : SearchRequest → Except Unit (Option (List (Except Unit RawItem))))
        (cseId query : String) (numResults : Nat),
      provider (searchRequest cseId query numResults) = Except.error () →
      search_reports provider cseId query numResults = []) ∧
    (∀ (provider : SearchRequest → Except Unit (Option (List (Except Unit RawItem))))
        (cseId query : String) (numResults : Nat)
        (pre : List RawItem) (rest : List (Except Unit RawItem)),
      provider (searchRequest cseId query numResults) =
        Except.ok (some (pre.map Except.ok ++ Except.error () :: rest)) →
      search_reports provider cseId query numResults = pre.map mkHit) := by
  constructor
  · intro provider cseId query numResults h
    simp only [search_reports, h]
  · intro provider cseId query numResults pre rest h
    simp only [search_reports, h, collectHits_map_ok]
    simp [collectHits]

/-- Witness for the amended C3: a failing request yields the empty hit
list. -/
theorem c3_search_failure_behavior_witness :
    search_reports (fun _ => Except.error ()) "cx" "q" 10 = [] :=
  c3_search_failure_behavior.1 (fun _ => Except.error ()) "cx" "q" 10 rfl

theorem parse_no_error_key (c : Content) :
    dFind (parse_esg_data c) "error" = none := by
  obtain ⟨t, s⟩ := c
  cases t
  · rcases h1 : carbonSearch s.data with _ | p
    · rcases h2 : netZeroSearch s.data with _ | y <;>
        simp [parse_esg_data, String.toList, h1, h2, dFind]
    · obtain ⟨num, unit⟩ := p
      rcases h2 : netZeroSearch s.data with _ | y <;>
        simp [parse_esg_data, String.toList, h1, h2, dFind]
  · rfl

theorem validate_parse_ok (c : Content) :
    ∃ v, validate_data (parse_esg_data c) = Except.ok v := by
  obtain ⟨v, hv, _⟩ := validate_spec (parse_esg_data c) (Or.inl (parse_no_error_key c))
  exact ⟨v, hv⟩

/-- C4: `process_search_results` yields exactly one record per hit whose
fetch returned content, in the input hits' relative order (hits whose
fetch returned `none` contribute nothing), and every record carries
`source`, `title` and `snippet` copied from its originating hit. -/
theorem c4_process_one_record_per_fetched_hit
    (fetchO : Option String → Option Content) (hits : List SearchHit) :
    process_search_results fetchO hits =
      Except.ok (hits.filterMap (fun h => (fetchO h.link).map (recordOf h))) ∧
    (∀ (h : SearchHit) (c : Content),
      dFind (recordOf h c) "source" = some (oVal h.link) ∧
      dFind (recordOf h c) "title" = some (oVal h.title) ∧
      dFind (recordOf h c) "snippet" = some (oVal h.snippet)) := by
  constructor
  · induction hits with
    | nil => rfl
    | cons h hs ih =>
      rcases hf : fetchO h.link with _ | c
      · simp only [process_search_results, hf, List.filterMap_cons]
        simp [ih]
      · obtain ⟨v, hv⟩ := validate_parse_ok c
        simp only [process_search_results, hf, hv, ih, List.filterMap_cons,
          Option.map_some]
        simp [recordOf, hv]
  · intro h c
    obtain ⟨v, hv⟩ := validate_parse_ok c
    simp only [recordOf, hv]
    refine ⟨?_, ?_, ?_⟩
    · rw [dFind_dSet_ne _ _ _ _ (by decide), dFind_dSet_ne _ _ _ _ (by decide),
        dFind_dSet_self]
    · rw [dFind_dSet_ne _ _ _ _ (by decide), dFind_dSet_self]
    · rw [dFind_dSet_self]

/-- C6 counterexample: a 304 response is not a 2xx status, yet
`raise_for_status` accepts it, so `fetch_content` classifies it as HTML
instead of returning absent — transport failure is 4xx/5xx-or-exception,
not non-2xx. -/
theorem c6_fetch_non2xx_counterexample :
    fetch_content (fun _ => []) "http://x/a" (Except.ok ⟨304, "", ""⟩) =
      some ⟨CType.html, ""⟩ ∧
    ¬ (200 ≤ 304 ∧ 304 < 300) := by
  exact ⟨rfl, by decide⟩

/-- C6 amended: whenever `fetch_content` returns a value, its kind is one
of {html, pdf}, it is pdf exactly when the `Content-Type` header contains
`application/pdf` (then the payload is the local `downloads/` path derived
from the URL's last segment), and otherwise html with the joined paragraph
text as payload; a connection-level exception or a 4xx/5xx status (the
statuses `raise_for_status` rejects) makes it return absent. -/
theorem c6_fetch_classification (soup : String → List String) (url : String) :
    (fetch_content soup url (Except.error ()) = none) ∧
    (∀ r : HttpResponse, 400 ≤ r.status → r.status < 600 →
      fetch_content soup url (Except.ok r) = none) ∧
    (∀ (r : HttpResponse) (c : Content),
      fetch_content soup url (Except.ok r) = some c →
      (c.type = CType.pdf ∨ c.type = CType.html) ∧
      (c.type = CType.pdf ↔
        containsSub ("application/pdf".toList) r.contentType.toList = true) ∧
      (c.type = CType.pdf → c.content = "downloads/" ++ lastSeg url) ∧
      (c.type = CType.html → c.content = String.intercalate " " (soup r.text))) := by
  refine ⟨rfl, ?_, ?_⟩
  · intro r h4 h6
    simp only [fetch_content]
    rw [if_pos ⟨h4, h6⟩]
  · intro r c hfc
    simp only [fetch_content] at hfc
    by_cases hs : 400 ≤ r.status ∧ r.status < 600
    · rw [if_pos hs] at hfc
      cases hfc
    · rw [if_neg hs] at hfc
      by_cases hp : containsSub ("application/pdf".toList) r.contentType.toList = true
      · rw [if_pos hp] at hfc
        obtain rfl := (Option.some_inj.mp hfc).symm
        refine ⟨Or.inl rfl, ?_, ?_, ?_⟩
        · simpa using hp
        · intro _; rfl
        · intro habs; cases habs
      · rw [if_neg hp] at hfc
        obtain rfl := (Option.some_inj.mp hfc).symm
        refine ⟨Or.inr rfl, ?_, ?_, ?_⟩
        · constructor
          · intro habs; cases habs
          · intro hc; exact absurd hc hp
        · intro habs; cases habs
        · intro _; rfl

/-- Witness for the amended C6: a 404 response yields absent. -/
theorem c6_fetch_classification_witness :
    fetch_content (fun _ => []) "u" (Except.ok ⟨404, "", ""⟩) = none :=
  (c6_fetch_classification (fun _ => []) "u").2.1 ⟨404, "", ""⟩ (by decide) (by decide)

theorem stripCI_some (pat : List Char) :
    ∀ cs r : List Char, stripCI pat cs = some r →
      ∃ pre, cs = pre ++ r ∧ pre.length = pat.length ∧
        pre.map Char.toLower = pat := by
  induction pat with
  | nil =>
    intro cs r h
    simp only [stripCI, Option.some_inj] at h
    exact ⟨[], by simp [h], rfl, rfl⟩
  | cons p ps ih =>
    intro cs r h
    cases cs with
    | nil => simp [stripCI] at h
    | cons c cs' =>
      simp only [stripCI] at h
      by_cases hc : c.toLower = p
      · rw [if_pos hc] at h
        obtain ⟨pre', heq, hlen, hmap⟩ := ih cs' r h
        exact ⟨c :: pre', by simp [heq], by simp [hlen], by simp [hmap, hc]⟩
      · rw [if_neg hc] at h
        cases h

theorem stripCI_of_map (pre : List Char) :
    ∀ r : List Char, stripCI (pre.map Char.toLower) (pre ++ r) = some r := by
  induction pre with
  | nil => intro r; rfl
  | cons c cs ih => intro r; simp [stripCI, ih r]

theorem lit_no_border :
    ∀ b : Fin 16, 1 ≤ b.val →
      ("carbon emissions".toList).take b.val ≠
        ("carbon emissions".toList).drop (16 - b.val) := by
  decide

theorem carbonSearch_phrase (z : List Char) :
    carbonSearch ("carbon emissions skyrocketed to 1,234 metric tons".toList ++ z) =
      some ("1,234".toList, "metric tons".toList) := rfl

theorem carbonAttempt_none_of_no_occ (c : Char) (x' Y z : List Char)
    (hY : Y = "carbon emissions skyrocketed to 1,234 metric tons".toList ++ z)
    (hx1 : (stripCI ("carbon emissions".toList) (c :: x')).isSome = false) :
    carbonAttempt ((c :: x') ++ Y) = none := by
  rcases hstrip : stripCI ("carbon emissions".toList) ((c :: x') ++ Y) with _ | r
  · simp only [carbonAttempt]
    rw [hstrip]
  · exfalso
    obtain ⟨pre, heq, hlen, hmap⟩ := stripCI_some _ _ _ hstrip
    have hlit16 : ("carbon emissions".toList).length = 16 := by decide
    rw [hlit16] at hlen
    by_cases hm : 16 ≤ (c :: x').length
    · -- the literal occurs wholly inside c :: x', contradicting hx1
      have hpre : pre = (c :: x').take 16 := by
        have h1 : ((c :: x') ++ Y).take 16 = (c :: x').take 16 :=
          List.take_append_of_le_length hm
        have h2 : (pre ++ r).take 16 = pre := by
          rw [← hlen, List.take_left]
        rw [heq, h2] at h1
        exact h1
      have hsplit : c :: x' = pre ++ (c :: x').drop 16 := by
        rw [hpre, List.take_append_drop]
      have : stripCI ("carbon emissions".toList) (c :: x') =
          some ((c :: x').drop 16) := by
        nth_rewrite 1 [hsplit]
        rw [← hmap]
        exact stripCI_of_map pre _
      rw [this] at hx1
      simp at hx1
    · -- the literal straddles the boundary: forces a border of itself
      push_neg at hm
      set X := c :: x' with hX
      set m := X.length with hm'
      have hm1 : 1 ≤ m := by
        rw [hm', hX]
        simp
      have hmle : m ≤ 15 := by omega
      have hXpre : X = pre.take m := by
        have h1 : (X ++ Y).take m = X := by
          rw [hm', List.take_left]
        have h2 : (pre ++ r).take m = pre.take m :=
          List.take_append_of_le_length (by omega)
        rw [heq, h2] at h1
        exact h1.symm
      have hYq : Y = pre.drop m ++ r := by
        have h1 : (X ++ Y).drop m = Y := by
          rw [hm', List.drop_left]
        have h2 : (pre ++ r).drop m = pre.drop m ++ r :=
          List.drop_append_of_le_length (by omega)
        rw [heq, h2] at h1
        exact h1.symm
      have hqlen : (pre.drop m).length = 16 - m := by
        simp [hlen]
      -- q is the first 16 - m characters of the phrase, i.e. of the literal
      have hq : pre.drop m = ("carbon emissions".toList).take (16 - m) := by
        have h1 : Y.take (16 - m) = pre.drop m := by
          rw [hYq, List.take_append_of_le_length (by omega), ← hqlen,
            List.take_length]
        have h2 : Y.take (16 - m) = ("carbon emissions".toList).take (16 - m) := by
          rw [hY]
          have hphr : "carbon emissions skyrocketed to 1,234 metric tons".toList =
              "carbon emissions".toList ++ " skyrocketed to 1,234 metric tons".toList :=
            rfl
          have hb1 : 16 - m ≤
              ("carbon emissions skyrocketed to 1,234 metric tons".toList).length := by
            have h49 : ("carbon emissions skyrocketed to 1,234 metric tons".toList).length =
                49 := by decide
            omega
          have hb2 : 16 - m ≤ ("carbon emissions".toList).length := by
            rw [hlit16]
            omega
          rw [List.take_append_of_le_length hb1, hphr,
            List.take_append_of_le_length hb2]
        rw [← h1, h2]
      -- the lowered tail of pre is the corresponding suffix of the literal
      have hmap2 : (pre.take m).map Char.toLower ++ (pre.drop m).map Char.toLower =
          ("carbon emissions".toList).take m ++ ("carbon emissions".toList).drop m := by
        rw [← List.map_append, List.take_append_drop, hmap, List.take_append_drop]
      have hdrop : (pre.drop m).map Char.toLower =
          ("carbon emissions".toList).drop m := by
        refine List.append_inj_right hmap2 ?_
        simp [hlen, hlit16]
      have hlower : ("carbon emissions".toList).map Char.toLower =
          "carbon emissions".toList := by decide
      have htake : (pre.drop m).map Char.toLower =
          ("carbon emissions".toList).take (16 - m) := by
        rw [hq, List.map_take, hlower]
      have : ("carbon emissions".toList).take (16 - m) =
          ("carbon emissions".toList).drop m := by
        rw [← htake, hdrop]
      refine lit_no_border ⟨16 - m, by omega⟩ (by simp; omega) ?_
      have h16 : 16 - (16 - m) = m := by omega
      simp only [h16]
      exact this

theorem carbonSearch_no_early (x z : List Char)
    (hx : hasOccCI ("carbon emissions".toList) x = false) :
    carbonSearch (x ++ ("carbon emissions skyrocketed to 1,234 metric tons".toList ++ z)) =
      some ("1,234".toList, "metric tons".toList) := by
  induction x with
  | nil => exact carbonSearch_phrase z
  | cons c x' ih =>
    have hx' : (stripCI ("carbon emissions".toList) (c :: x')).isSome = false ∧
        hasOccCI ("carbon emissions".toList) x' = false := by
      have := hx
      simp only [hasOccCI, Bool.or_eq_false_iff] at this
      exact this
    have hattempt :
        carbonAttempt ((c :: x') ++
          ("carbon emissions skyrocketed to 1,234 metric tons".toList ++ z)) = none :=
      carbonAttempt_none_of_no_occ c x' _ z rfl hx'.1
    rw [List.cons_append] at hattempt ⊢
    simp only [carbonSearch, hattempt]
    exact ih hx'.2

/-- C7 counterexample: a payload containing the phrase does not always
yield `carbon_emissions = "1,234 metric tons"`: an earlier complete match
of the pattern wins, because `re.search` reports the leftmost match. -/
theorem c7_carbon_roundtrip_counterexample :
    containsSub ("carbon emissions skyrocketed to 1,234 metric tons".toList)
      ("carbon emissions 5 MT carbon emissions skyrocketed to 1,234 metric tons".toList) =
      true ∧
    dFind (parse_esg_data ⟨CType.html,
        "carbon emissions 5 MT carbon emissions skyrocketed to 1,234 metric tons"⟩)
      "carbon_emissions" = some (Value.s "5 MT") ∧
    Value.s "5 MT" ≠ Value.s "1,234 metric tons" := by
  refine ⟨by decide, by decide, by decide⟩

/-- C7 amended: for every html payload of the form `p₁ ++ phrase ++ p₂`
where the text `p₁` before the phrase has no case-insensitive occurrence
of "carbon emissions" (so the phrase hosts the leftmost match), extract
yields `carbon_emissions = "1,234 metric tons"`, the number's formatting
and the unit's casing preserved from the match. -/
theorem c7_carbon_leftmost (s : String) (p₁ p₂ : List Char)
    (hs : s.data =
      p₁ ++ "carbon emissions skyrocketed to 1,234 metric tons".toList ++ p₂)
    (hp : hasOccCI ("carbon emissions".toList) p₁ = false) :
    dFind (parse_esg_data ⟨CType.html, s⟩) "carbon_emissions" =
      some (Value.s "1,234 metric tons") := by
  have hcs : carbonSearch s.data = some ("1,234".toList, "metric tons".toList) := by
    rw [hs, List.append_assoc]
    exact carbonSearch_no_early p₁ p₂ hp
  rcases hnz : netZeroSearch s.data with _ | y <;>
    simp [parse_esg_data, String.toList, hcs, hnz, dFind]

/-- Witness for the amended C7 at the bare phrase. -/
theorem c7_carbon_leftmost_witness :
    dFind (parse_esg_data ⟨CType.html,
        "carbon emissions skyrocketed to 1,234 metric tons"⟩) "carbon_emissions" =
      some (Value.s "1,234 metric tons") :=
  c7_carbon_leftmost "carbon emissions skyrocketed to 1,234 metric tons"
    [] [] (by simp) (by decide)
